import Mathlib

/-!
Verification of the Durak discord-bot game engine
(`src/models.py`, `src/commands.py`, `src/config.py`).

The embedding translates the pure game logic of the source: cards and deck
construction, defense legality, the attack/defend/take/giveup commands, turn
rotation and hand refill.  Chat-platform effects (messages, channels, roles)
are dropped; commands are modelled as pure functions on a `Server` record and
always return the resulting server state together with a typed outcome, the
returned state being whatever state Python leaves behind (including partial
mutations when `list.remove` raises mid-loop and the exception is caught).
-/

namespace Durak

/-- The four suits, from `config.CARD_SUITS` (the list
['\u2665\ufe0f', '\u2666\ufe0f', '\u2663\ufe0f', '\u2660\ufe0f']). -/
inductive Suit
  | hearts | diamonds | clubs | spades
deriving DecidableEq, Repr, Fintype

/-- Constant `config.CARD_SUITS`, in the source's order. -/
def suitList : List Suit := [.hearts, .diamonds, .clubs, .spades]

/-- The nine rank keys of `config.CARD_RANKS`
(`{'6':0,'7':1,'8':2,'9':3,'10':4,'J':5,'Q':6,'K':7,'A':8}`). -/
inductive Rank
  | r6 | r7 | r8 | r9 | r10 | rJ | rQ | rK | rA
deriving DecidableEq, Repr, Fintype

/-- The value of a rank in `config.CARD_RANKS`. -/
def rankValue : Rank → Nat
  | .r6 => 0 | .r7 => 1 | .r8 => 2 | .r9 => 3 | .r10 => 4
  | .rJ => 5 | .rQ => 6 | .rK => 7 | .rA => 8

/-- The rank's label string, as stored in `Card.rank` in the source. -/
def rankLabel : Rank → String
  | .r6 => "6" | .r7 => "7" | .r8 => "8" | .r9 => "9" | .r10 => "10"
  | .rJ => "J" | .rQ => "Q" | .rK => "K" | .rA => "A"

/-- A playing card, `models.Card`: a (rank, suit) pair with value equality
(`Card.__eq__` compares rank and suit). -/
structure Card where
  rank : Rank
  suit : Suit
deriving DecidableEq, Repr, Fintype

/-- The label the deck-construction loop of `Card.create_deck` assigns to a
loop counter value: `label = str(number)`, then
`if number == 10: label = 'J' elif number == 11: label = 'Q'
elif number == 12: label = 'K' elif number == 13: label = 'A'`. -/
def labelOfNumber (number : Nat) : String :=
  if number = 10 then "J"
  else if number = 11 then "Q"
  else if number = 12 then "K"
  else if number = 13 then "A"
  else toString number

/-- All ranks, in `CARD_RANKS` order. -/
def rankList : List Rank :=
  [.r6, .r7, .r8, .r9, .r10, .rJ, .rQ, .rK, .rA]

/-- Recover the `Rank` whose label is a given string (none if the string is
not a rank label). -/
def rankOfLabel (s : String) : Option Rank :=
  rankList.find? (fun r => rankLabel r = s)

/-- Deck construction, `models.Card.create_deck`: `for number in range(6, 14):
for suit in CARD_SUITS: deck.append(cls(label, suit))` with
`label = labelOfNumber number`.  `range(6, 14)` is the numbers 6..13. -/
def Card.create_deck : List Card :=
  (List.range' 6 8).flatMap fun number =>
    suitList.filterMap fun suit =>
      (rankOfLabel (labelOfNumber number)).map fun r => Card.mk r suit

/-- Defense legality, `models.Server.is_defence_success`, with the trump
card's suit abstracted as `trumpSuit` (the source reads
`self.trump_card.suit`).  The rank comparison is
`CARD_RANKS[attacking_card.rank] < CARD_RANKS[defending_card.rank]`. -/
def is_defence_success (trumpSuit : Suit) (attacking_card defending_card : Card) : Bool :=
  if attacking_card.suit = trumpSuit ∧ defending_card.suit ≠ trumpSuit then
    false
  else if attacking_card.suit ≠ trumpSuit ∧ defending_card.suit = trumpSuit then
    true
  else if defending_card.suit = attacking_card.suit then
    decide (rankValue attacking_card.rank < rankValue defending_card.rank)
  else
    false

/-- A player, `models.Player`: the game-relevant fields are the turn number
(`player_number`, assigned sequentially at join time) and the hand. -/
structure GPlayer where
  number : Nat
  hand : List Card
deriving DecidableEq, Repr

/-- Default player used with `List.getD` for list indexing; operations only
index within bounds, mirroring Python's raising indexing. -/
def dPlayer : GPlayer := ⟨0, []⟩

/-- Default card for `List.getD` indexing (same remark as `dPlayer`). -/
def dCard : Card := ⟨.r6, .hearts⟩

/-- A table entry: an attack card paired with an optional defense card,
`models.Server.table : List[Tuple[Card, Optional[Card]]]`. -/
abbrev TablePair := Card × Option Card

/-- Default table pair for `List.getD` indexing. -/
def dPair : TablePair := (dCard, none)

/-- Game lifecycle states, `config.GameState`. -/
inductive GState
  | setup | playing | finished
deriving DecidableEq, Repr

/-- The game-relevant state of `models.Server`.  `players` is kept in dict
insertion order (= join order); `attacker`, `defender` and `finished_players`
hold players' turn numbers (the source holds object references / authors;
turn numbers are unique identifiers for them).  `discard` is an accounting
ghost: the cards dropped when a fully-defended table is cleared at turn end
(the source simply sets `table = []`; with `turn_taken` the table cards were
already copied into the defender's hand by `take`, so nothing is discarded). -/
structure Server where
  state : GState
  players : List GPlayer
  deck : List Card
  trump_card : Card
  trump_taken : Bool
  table : List TablePair
  attacker : Nat
  defender : Nat
  finished_players : List Nat
  discard : List Card
deriving DecidableEq, Repr

/-- Insert a player into a list sorted by `number` (helper for
`sortByNumber`). -/
def insertByNumber (p : GPlayer) : List GPlayer → List GPlayer
  | [] => [p]
  | q :: qs => if p.number ≤ q.number then p :: q :: qs else q :: insertByNumber p qs

/-- Sorting `sorted(self.players.values(), key=lambda p: p.number)` (a stable
insertion sort; numbers are unique anyway). -/
def sortByNumber : List GPlayer → List GPlayer
  | [] => []
  | p :: ps => insertByNumber p (sortByNumber ps)

/-- Replace the hand of the player with the given number (the source mutates
the `Player` object in place; numbers are unique identifiers). -/
def updateHand (ps : List GPlayer) (num : Nat) (h : List Card) : List GPlayer :=
  ps.map fun p => if p.number = num then { p with hand := h } else p

/-- The hand of the player with the given number. -/
def handOf (sv : Server) (num : Nat) : List Card :=
  ((sv.players.find? fun p => p.number = num).getD dPlayer).hand

/-- Python `list.remove(c)`: delete the first occurrence of `c`; `none` models
the `ValueError` raised when `c` is absent. -/
def removeFirst (h : List Card) (c : Card) : Option (List Card) :=
  match h with
  | [] => none
  | x :: xs => if x = c then some xs else (removeFirst xs c).map (x :: ·)

/-- Ownership check `models.Server.cards_are_in_hand`: every requested card is
in the hand.  The source compares string representations; `str` is injective
on cards (the suit symbol is always the 2-character suffix), so string
membership coincides with value membership. -/
def cards_are_in_hand (hand : List Card) (cards : List Card) : Bool :=
  cards.all fun c => hand.contains c

/-- The `allowed_values` set built by `commands.play` (lines 169-174): the
rank of every attack card on the table plus the rank of every present defense
card.  Modelled as a list used only through membership. -/
def table_allowed_values (table : List TablePair) : List Rank :=
  table.flatMap fun pr => pr.1.rank :: (pr.2.map fun d => d.rank).toList

/-- The same-value check of `commands.play` (lines 162-166): every card has
the rank of the first card. -/
def same_value_check (card_objects : List Card) : Bool :=
  match card_objects with
  | [] => true
  | c :: _ => !(card_objects.any fun x => x.rank ≠ c.rank)

/-- The table rank-matching check of `commands.play` (lines 169-180): if the
table is non-empty, every played card's rank must be among the ranks already
on the table. -/
def table_rank_check (table : List TablePair) (card_objects : List Card) : Bool :=
  if table.isEmpty then true
  else card_objects.all fun c => (table_allowed_values table).contains c.rank

/-- Both rank checks of `commands.play` together. -/
def play_rank_checks (table : List TablePair) (card_objects : List Card) : Bool :=
  same_value_check card_objects && table_rank_check table card_objects

/-- Typed outcome of `commands.play` (which error message, if any, the source
sends). -/
inductive PlayOutcome
  | ok | errNotActive | errNoCards | errNotInHand | errDifferentValues
  | errRankNotOnTable | errValueError
deriving DecidableEq, Repr

/-- The card-playing loop of `commands.play` (lines 183-185):
`for card_obj in card_objects: player.hand.remove(card_obj);
server.table.append((card_obj, None))`.  If `remove` raises `ValueError`
(duplicate input card no longer present), the exception is caught by the
surrounding `except ValueError` and the mutations already applied stand. -/
def playApply : List Card → List Card → List TablePair → List Card × List TablePair × Bool
  | [], h, t => (h, t, true)
  | c :: cs, h, t =>
    match removeFirst h c with
    | none => (h, t, false)
    | some h' => playApply cs h' (t ++ [(c, none)])

/-- Attack command `commands.play`: the attacker plays cards.  The
`@is_game_active` guard requires `state == PLAYING`; the caller is the
attacker (`@is_player_turn`).  Inputs are the parsed cards (parse failures
mutate nothing and are not modelled separately). -/
def play (sv : Server) (cards : List Card) : Server × PlayOutcome :=
  if sv.state ≠ .playing then (sv, .errNotActive)
  else if cards = [] then (sv, .errNoCards)
  else if ¬ cards_are_in_hand (handOf sv sv.attacker) cards then (sv, .errNotInHand)
  else if ¬ same_value_check cards then (sv, .errDifferentValues)
  else if ¬ table_rank_check sv.table cards then (sv, .errRankNotOnTable)
  else
    let (h', t', ok) := playApply cards (handOf sv sv.attacker) sv.table
    ({ sv with players := updateHand sv.players sv.attacker h', table := t' },
     if ok then .ok else .errValueError)

/-- Typed outcome of `commands.defend`. -/
inductive DefendOutcome
  | ok | errNotActive | errNoTable | errAllDefended | errNoCards | errNotInHand
  | errWrongCount | errInvalidDefense | errValueError
deriving DecidableEq, Repr

/-- Comprehension `undefended = [i for i, (_, d) in enumerate(server.table)
if d is None]` (`commands.defend` line 237). -/
def undefendedIdxs (t : List TablePair) : List Nat :=
  (List.range t.length).filter fun i => ((t.getD i dPair).2).isNone

/-- The defense-application loop of `commands.defend` (lines 263-266):
`for j, i in enumerate(undefended): server.table[i] = (server.table[i][0],
defense_card); player.hand.remove(defense_card)`.  The table slot is written
BEFORE the hand removal, so when `remove` raises `ValueError` the loop stops
with that slot already filled (the exception is caught downstream). -/
def defendApply : List (Nat × Card) → List TablePair → List Card →
    List TablePair × List Card × Bool
  | [], t, h => (t, h, true)
  | (i, c) :: rest, t, h =>
    let t' := t.set i ((t.getD i dPair).1, some c)
    match removeFirst h c with
    | none => (t', h, false)
    | some h' => defendApply rest t' h'

/-- Defense command `commands.defend`: the defender covers all undefended
table pairs.  The caller is the defender; inputs are the parsed cards,
matched positionally to the undefended pairs in table order. -/
def defend (sv : Server) (cards : List Card) : Server × DefendOutcome :=
  if sv.state ≠ .playing then (sv, .errNotActive)
  else if sv.table = [] then (sv, .errNoTable)
  else if sv.table.all (fun pr => pr.2.isSome) then (sv, .errAllDefended)
  else if cards = [] then (sv, .errNoCards)
  else if ¬ cards_are_in_hand (handOf sv sv.defender) cards then (sv, .errNotInHand)
  else if cards.length ≠ (undefendedIdxs sv.table).length then (sv, .errWrongCount)
  else if ¬ ((undefendedIdxs sv.table).zip cards).all
      (fun ic => is_defence_success sv.trump_card.suit ((sv.table.getD ic.1 dPair).1) ic.2) then
    (sv, .errInvalidDefense)
  else
    let (t', h', ok) :=
      defendApply ((undefendedIdxs sv.table).zip cards) sv.table (handOf sv sv.defender)
    ({ sv with table := t', players := updateHand sv.players sv.defender h' },
     if ok then .ok else .errValueError)

/-- The draw loop of `models.Server.refill_hands` (lines 183-187):
`while len(p.hand) < 6 and self.deck: drawn = self.deck.pop(0);
p.hand.append(drawn)`, rendered structurally on the deck (checking the two
loop conditions in either order is equivalent; the `trump_taken` flag update
is bookkeeping handled at the `refill_hands` level). -/
def drawLoop (hand : List Card) (deck : List Card) : List Card × List Card :=
  match deck with
  | [] => (hand, [])
  | drawn :: rest =>
    if hand.length < 6 then drawLoop (hand ++ [drawn]) rest
    else (hand, drawn :: rest)

/-- One iteration of the refill loop of `models.Server.refill_hands`
(lines 177-187): look up the visited player; `if len(p.hand) == 0: continue`;
otherwise run the draw loop and store the new hand. -/
def refillOne (ps : List GPlayer) (deck : List Card) (num : Nat) :
    List GPlayer × List Card :=
  match ps.find? (fun p => p.number = num) with
  | none => (ps, deck)
  | some p =>
    if p.hand.isEmpty then (ps, deck)
    else
      let hd := drawLoop p.hand deck
      (updateHand ps num hd.1, hd.2)

/-- The visiting order of `models.Server.refill_hands` (lines 173-178):
players sorted by number, starting from the attacker's index (`next(..., 0)`
defaults to 0 when the attacker is absent), proceeding cyclically. -/
def refillOrder (ps : List GPlayer) (attackerNum : Nat) : List Nat :=
  let pbn := sortByNumber ps
  let j := pbn.findIdx fun p => p.number = attackerNum
  let start_index := if j < pbn.length then j else 0
  (List.range pbn.length).map fun i =>
    (pbn.getD ((start_index + i) % pbn.length) dPlayer).number

/-- Refill `models.Server.refill_hands` (lines 171-225): refill every visited
player with a non-empty hand up to 6 cards from the front of the deck; set
`trump_taken` when the trump card is drawn; then remove every player with an
empty hand from `players` and add them to `finished_players`. -/
def refill_hands (sv : Server) : Server :=
  let order := refillOrder sv.players sv.attacker
  let pd := order.foldl (fun (acc : List GPlayer × List Card) num =>
    refillOne acc.1 acc.2 num) (sv.players, sv.deck)
  let consumed := sv.deck.take (sv.deck.length - pd.2.length)
  let eliminated := pd.1.filter fun p => p.hand.isEmpty
  { sv with
    players := pd.1.filter fun p => !p.hand.isEmpty,
    deck := pd.2,
    trump_taken := sv.trump_taken || consumed.contains sv.trump_card,
    finished_players := sv.finished_players ++ eliminated.map (·.number) }

/-- The next-attacker/defender computation of `commands.end_turn`
(lines 349-359), as a function of the sorted player list, the old defender's
number and `turn_taken`.  Returns (new attacker number, new defender number). -/
def end_turn_assign (pbn : List GPlayer) (oldDefender : Nat) (turn_taken : Bool) :
    Nat × Nat :=
  let def_index := pbn.findIdx fun p => p.number = oldDefender
  let start_index := if turn_taken then (def_index + 1) % pbn.length else def_index
  ((pbn.getD start_index dPlayer).number,
   (pbn.getD ((start_index + 1) % pbn.length) dPlayer).number)

/-- Ghost accounting for clearing the table at turn end: when the defender
took the cards (`turn_taken`) the table cards were already copied into their
hand, so clearing discards nothing; otherwise the fully-defended cards leave
play into the discard. -/
def clearDiscard (discard : List Card) (table : List TablePair) (turn_taken : Bool) :
    List Card :=
  if turn_taken then discard
  else discard ++ table.flatMap fun pr => pr.1 :: pr.2.toList

/-- The game-over report produced by the win-check branch of
`commands.end_turn` (lines 375-402): the sole remaining player is announced
as the Durak, the finished players are the winners notified of the result. -/
structure Report where
  durak : Nat
  winners : List Nat
deriving DecidableEq, Repr

/-- Turn transition `commands.end_turn`: reassign attacker and defender,
clear the table (fully-defended given-up cards leave play: ghost `discard`),
refill hands, then either finish the game (exactly one player left) or update
the trump bookkeeping (lines 404-408) and continue. -/
def end_turn (sv : Server) (turn_taken : Bool) : Server × Option Report :=
  let ad := end_turn_assign (sortByNumber sv.players) sv.defender turn_taken
  let sv1 := { sv with
    attacker := ad.1, defender := ad.2, table := [],
    discard := clearDiscard sv.discard sv.table turn_taken }
  let sv2 := refill_hands sv1
  if sv2.players.length = 1 then
    ({ sv2 with state := .finished },
     some ⟨(sv2.players.getD 0 dPlayer).number, sv2.finished_players⟩)
  else
    (if ¬ sv2.deck.contains sv2.trump_card then { sv2 with trump_taken := true }
     else sv2, none)

/-- Typed outcome of `commands.take`. -/
inductive TakeOutcome
  | ok | errNotActive | errNoTable | errAllDefended
deriving DecidableEq, Repr

/-- Take command `commands.take`: the defender takes every card on the table
(attack card then defense card of each pair, in table order) into their hand,
then the turn ends with `turn_taken=True`. -/
def take (sv : Server) : Server × Option Report × TakeOutcome :=
  if sv.state ≠ .playing then (sv, none, .errNotActive)
  else if sv.table = [] then (sv, none, .errNoTable)
  else if sv.table.all (fun pr => pr.2.isSome) then (sv, none, .errAllDefended)
  else
    let newHand := handOf sv sv.defender ++ sv.table.flatMap fun pr => pr.1 :: pr.2.toList
    let r := end_turn { sv with players := updateHand sv.players sv.defender newHand } true
    (r.1, r.2, .ok)

/-- Typed outcome of `commands.giveup`. -/
inductive GiveupOutcome
  | ok | errNotActive | errNoTable | errNotAllDefended
deriving DecidableEq, Repr

/-- Giveup command `commands.giveup`: the attacker ends a fully-defended
attack; the turn ends with `turn_taken=False`. -/
def giveup (sv : Server) : Server × Option Report × GiveupOutcome :=
  if sv.state ≠ .playing then (sv, none, .errNotActive)
  else if sv.table = [] then (sv, none, .errNoTable)
  else if sv.table.any (fun pr => pr.2.isNone) then (sv, none, .errNotAllDefended)
  else
    let r := end_turn sv false
    (r.1, r.2, .ok)

/-- Python string `<` restricted to lists of characters: lexicographic
comparison by code point.  Line 98 of `commands.start_game` compares the rank
LABEL STRINGS of trump cards this way (`card.rank < lowest_trump`). -/
def pyStrLt : List Char → List Char → Bool
  | [], [] => false
  | [], _ :: _ => true
  | _ :: _, [] => false
  | a :: as, b :: bs =>
    if a.toNat < b.toNat then true
    else if b.toNat < a.toNat then false
    else pyStrLt as bs

/-- Python string `<` on rank labels. -/
def labelLt (a b : Rank) : Bool :=
  pyStrLt (rankLabel a).data (rankLabel b).data

/-- The lowest-trump fold of `commands.start_game` (lines 95-100): visit the
players in join order, their hands in hand order; whenever a trump-suit card
has a rank-label string `<` (Python string order) the lowest seen so far,
record its rank and make its holder the attacker.  Returns the attacker's
number, if any trump-suit card was seen. -/
def lowestTrumpFold (trumpSuit : Suit) (players : List GPlayer) : Option Nat :=
  (players.foldl (fun acc p =>
      p.hand.foldl (fun (acc2 : Option Rank × Option Nat) card =>
        if card.suit = trumpSuit then
          match acc2.1 with
          | none => (some card.rank, some p.number)
          | some lo =>
            if labelLt card.rank lo then (some card.rank, some p.number) else acc2
        else acc2)
        acc)
    ((none, none) : Option Rank × Option Nat)).2

/-- The dealing loop of `commands.start_game` (line 93): each player in join
order receives the next 6 cards from the front of the deck
(`p.hand = [server.deck.pop(0) for _ in range(6)]`).  Players are numbered
`first, first+1, ...`. -/
def dealLoop : Nat → Nat → List Card → List GPlayer × List Card
  | 0, _, d => ([], d)
  | n + 1, first, d =>
    let rest := dealLoop n (first + 1) (d.drop 6)
    (⟨first, d.take 6⟩ :: rest.1, rest.2)

/-- Start command `commands.start_game` (plus `models.Server.initialize_deck`)
for a given shuffled deck order and player count: the trump card is the last
card of the shuffled deck, each player is dealt 6 cards, the attacker is the
lowest-trump holder (defaulting to the first-joined player), the defender is
the next player in turn-number rotation. -/
def start_game (deckPerm : List Card) (n : Nat) : Server :=
  let trump := deckPerm.getD (deckPerm.length - 1) dCard
  let pd := dealLoop n 1 deckPerm
  let att := (lowestTrumpFold trump.suit pd.1).getD (pd.1.getD 0 dPlayer).number
  let pbn := sortByNumber pd.1
  let ai := pbn.findIdx fun p => p.number = att
  let defd := (pbn.getD ((ai + 1) % pbn.length) dPlayer).number
  { state := .playing, players := pd.1, deck := pd.2, trump_card := trump,
    trump_taken := false, table := [], attacker := att, defender := defd,
    finished_players := [], discard := [] }

/-- All card locations of a server state, for the conservation claim: deck,
all active hands, table cards (attack and defense slots), and the turn-end
discard; eliminated players hold no cards (they are eliminated exactly when
their hand is empty). -/
def locCards (sv : Server) : List Card :=
  sv.deck ++ (sv.players.flatMap fun p => p.hand) ++
    (sv.table.flatMap fun pr => pr.1 :: pr.2.toList) ++ sv.discard

/-- A concrete shuffle of the deck (a permutation of `Card.create_deck`,
proved inside claim C1's theorem): player 1 is dealt
6\u2665 7\u2660 7\u2663 6\u2666 6\u2663 6\u2660, player 2 is dealt
8\u2665 8\u2666 8\u2663 8\u2660 9\u2666 9\u2663, and the bottom card (the
trump) is A\u2665. -/
def deckC1 : List Card :=
  [⟨.r6, .hearts⟩, ⟨.r7, .spades⟩, ⟨.r7, .clubs⟩, ⟨.r6, .diamonds⟩,
   ⟨.r6, .clubs⟩, ⟨.r6, .spades⟩,
   ⟨.r8, .hearts⟩, ⟨.r8, .diamonds⟩, ⟨.r8, .clubs⟩, ⟨.r8, .spades⟩,
   ⟨.r9, .diamonds⟩, ⟨.r9, .clubs⟩,
   ⟨.r7, .hearts⟩, ⟨.r7, .diamonds⟩, ⟨.r9, .hearts⟩, ⟨.r9, .spades⟩,
   ⟨.rJ, .hearts⟩, ⟨.rJ, .diamonds⟩, ⟨.rJ, .clubs⟩, ⟨.rJ, .spades⟩,
   ⟨.rQ, .hearts⟩, ⟨.rQ, .diamonds⟩, ⟨.rQ, .clubs⟩, ⟨.rQ, .spades⟩,
   ⟨.rK, .hearts⟩, ⟨.rK, .diamonds⟩, ⟨.rK, .clubs⟩, ⟨.rK, .spades⟩,
   ⟨.rA, .diamonds⟩, ⟨.rA, .clubs⟩, ⟨.rA, .spades⟩, ⟨.rA, .hearts⟩]

/-- The game started from `deckC1` with 2 players (trump suit: hearts;
attacker: player 1, who holds the trump 6\u2665). -/
def sC1_0 : Server := start_game deckC1 2

/-- State `sC1_0` after the attacker plays 7\u2660 7\u2663. -/
def sC1_1 : Server := (play sC1_0 [⟨.r7, .spades⟩, ⟨.r7, .clubs⟩]).1

/-- State `sC1_1` after the defender calls defend with the card string
8\u2665\ufe0f twice while holding a single 8\u2665\ufe0f. -/
def sC1_2 : Server := (defend sC1_1 [⟨.r8, .hearts⟩, ⟨.r8, .hearts⟩]).1

/-- A concrete shuffle for claim C6: player 1's only trump is A\u2665, player
2's only trump is J\u2665, and the bottom card (the trump) is K\u2665. -/
def deckC6 : List Card :=
  [⟨.rA, .hearts⟩, ⟨.r6, .spades⟩, ⟨.r6, .clubs⟩, ⟨.r6, .diamonds⟩,
   ⟨.r7, .spades⟩, ⟨.r7, .clubs⟩,
   ⟨.rJ, .hearts⟩, ⟨.r8, .spades⟩, ⟨.r8, .clubs⟩, ⟨.r8, .diamonds⟩,
   ⟨.r9, .spades⟩, ⟨.r9, .clubs⟩,
   ⟨.r6, .hearts⟩, ⟨.r7, .hearts⟩, ⟨.r8, .hearts⟩, ⟨.r9, .hearts⟩,
   ⟨.rQ, .hearts⟩, ⟨.r7, .diamonds⟩, ⟨.r9, .diamonds⟩, ⟨.rJ, .diamonds⟩,
   ⟨.rQ, .diamonds⟩, ⟨.rK, .diamonds⟩, ⟨.rA, .diamonds⟩, ⟨.rJ, .clubs⟩,
   ⟨.rQ, .clubs⟩, ⟨.rK, .clubs⟩, ⟨.rA, .clubs⟩, ⟨.rJ, .spades⟩,
   ⟨.rQ, .spades⟩, ⟨.rK, .spades⟩, ⟨.rA, .spades⟩, ⟨.rK, .hearts⟩]

/-- Spec-side description of the rotation used by claim C7: the player
immediately after the player numbered `x` in turn-number rotation order with
wraparound, i.e. in the sorted-by-number player list, the entry following
x's entry, cyclically. -/
def nextAfter (pbn : List GPlayer) (x : Nat) : Nat :=
  (pbn.getD (((pbn.findIdx fun p => p.number = x) + 1) % pbn.length) dPlayer).number

/-- A playing state used for claim C5: trump hearts, two undefended attack
cards 7\u2660 7\u2663 on the table, and the defender (player 2) holding a
single 9\u2665. -/
def sC5 : Server :=
  { state := .playing,
    players := [⟨1, [⟨.r6, .spades⟩]⟩, ⟨2, [⟨.r9, .hearts⟩]⟩],
    deck := [⟨.r6, .diamonds⟩],
    trump_card := ⟨.rA, .hearts⟩,
    trump_taken := false,
    table := [(⟨.r7, .spades⟩, none), (⟨.r7, .clubs⟩, none)],
    attacker := 1, defender := 2, finished_players := [], discard := [] }

/-- Spec-side description (claim C8) of one refill visit: a player with an
empty hand draws nothing; otherwise the player appends to their hand the
front of the deck until the hand reaches 6 cards or the deck is empty
(`deck.take (6 - handSize)`), the deck losing exactly those cards. -/
def refillSpecOne (ps : List GPlayer) (deck : List Card) (num : Nat) :
    List GPlayer × List Card :=
  match ps.find? (fun p => p.number = num) with
  | none => (ps, deck)
  | some p =>
    if p.hand.isEmpty then (ps, deck)
    else (updateHand ps num (p.hand ++ deck.take (6 - p.hand.length)),
          deck.drop (6 - p.hand.length))

/-- Spec-side description (claim C8) of the whole refill: visit the players
in turn-number rotation order starting from the new attacker applying
`refillSpecOne`, then remove every player with an empty hand from the active
set and add them to the finished players — unconditionally, even if cards
remain in the deck. -/
def refillSpec (sv : Server) : Server :=
  let order := refillOrder sv.players sv.attacker
  let pd := order.foldl (fun (acc : List GPlayer × List Card) num =>
    refillSpecOne acc.1 acc.2 num) (sv.players, sv.deck)
  let consumed := sv.deck.take (sv.deck.length - pd.2.length)
  let eliminated := pd.1.filter fun p => p.hand.isEmpty
  { sv with
    players := pd.1.filter fun p => !p.hand.isEmpty,
    deck := pd.2,
    trump_taken := sv.trump_taken || consumed.contains sv.trump_card,
    finished_players := sv.finished_players ++ eliminated.map (·.number) }

/-- A playing state used for claim C8's witness: player 1 holds one card,
player 2's hand is already empty, and 7 cards remain in the deck. -/
def svC8 : Server :=
  { state := .playing,
    players := [⟨1, [⟨.r6, .spades⟩]⟩, ⟨2, []⟩],
    deck := [⟨.r7, .diamonds⟩, ⟨.r8, .diamonds⟩, ⟨.r9, .diamonds⟩,
             ⟨.rJ, .diamonds⟩, ⟨.rQ, .diamonds⟩, ⟨.rK, .diamonds⟩,
             ⟨.rA, .diamonds⟩],
    trump_card := ⟨.rA, .hearts⟩, trump_taken := false, table := [],
    attacker := 1, defender := 2, finished_players := [], discard := [] }

/-- Sequential Python `list.remove` of several cards (the hand mutations a
fully successful defend performs); `none` when some removal would raise. -/
def removeList (h : List Card) : List Card → Option (List Card)
  | [] => some h
  | c :: cs =>
    match removeFirst h c with
    | none => none
    | some h1 => removeList h1 cs

/-- Spec-side description (claim C10) of a successful defend's effect on the
table: keep the pairs in order, keep every attack card and every
already-present defense card, and fill the undefended pairs positionally
with the supplied cards. -/
def fillTable : List TablePair → List Card → List TablePair
  | [], _ => []
  | (a, some d) :: t, cs => (a, some d) :: fillTable t cs
  | (a, none) :: t, c :: cs => (a, some c) :: fillTable t cs
  | (a, none) :: t, [] => (a, none) :: t

/-- A playing state used for claim C10's witness: one undefended 7\u2660 on
the table, the defender holding 8\u2660 (same suit, higher rank). -/
def svC10 : Server :=
  { state := .playing,
    players := [⟨1, [⟨.r6, .spades⟩]⟩, ⟨2, [⟨.r8, .spades⟩, ⟨.r9, .diamonds⟩]⟩],
    deck := [⟨.r6, .clubs⟩],
    trump_card := ⟨.rA, .hearts⟩, trump_taken := false,
    table := [(⟨.r7, .spades⟩, none)],
    attacker := 1, defender := 2, finished_players := [], discard := [] }

/-- The table of claim C4's witness (the spec's pile-on scenario): 7♠ already
defended by 7♥, plus an undefended 9♣ — so ranks 7 and 9 are in play. -/
def tableC4 : List TablePair :=
  [(⟨.r7, .spades⟩, some ⟨.r7, .hearts⟩), (⟨.r9, .clubs⟩, none)]

/-- A playing state used for claim C9's witness: player 2 has just emptied
their hand, the deck is empty, and the fully-defended table turn is ending. -/
def svC9 : Server :=
  { state := .playing,
    players := [⟨1, [⟨.r6, .spades⟩]⟩, ⟨2, []⟩],
    deck := [],
    trump_card := ⟨.rA, .hearts⟩, trump_taken := false,
    table := [(⟨.r7, .spades⟩, some ⟨.r8, .spades⟩)],
    attacker := 1, defender := 2, finished_players := [], discard := [] }

/-- A playing state used for claim C7's witness: three players with
one-card hands, attacker 1, defender 2. -/
def svC7 : Server :=
  { state := .playing,
    players := [⟨1, [⟨.r6, .spades⟩]⟩, ⟨2, [⟨.r7, .spades⟩]⟩, ⟨3, [⟨.r8, .spades⟩]⟩],
    deck := [], trump_card := ⟨.rA, .hearts⟩, trump_taken := false, table := [],
    attacker := 1, defender := 2, finished_players := [], discard := [] }

/-- Boolean list membership (`List.contains`, as used by the checks above)
agrees with propositional membership. -/
theorem contains_eq_mem {α : Type} [DecidableEq α] (l : List α) (a : α) :
    l.contains a = true ↔ a ∈ l := by
  simp [List.contains, List.elem_iff]

/-- Looking up a present player number by `findIdx` lands in range and on an
entry carrying that number. -/
theorem getD_findIdx_number (pbn : List GPlayer) (x : Nat)
    (hx : x ∈ pbn.map (fun p => p.number)) :
    pbn.findIdx (fun p => p.number = x) < pbn.length ∧
    (pbn.getD (pbn.findIdx fun p => p.number = x) dPlayer).number = x := by
  induction pbn with
  | nil => simp at hx
  | cons p ps ih =>
    by_cases hp : p.number = x
    · simp [List.findIdx_cons, hp]
    · simp only [List.map_cons, List.mem_cons] at hx
      rcases hx with hx | hx
      · exact absurd hx.symm hp
      · obtain ⟨ih1, ih2⟩ := ih hx
        have hfix : (p :: ps).findIdx (fun q => q.number = x) =
            (ps.findIdx fun q => q.number = x) + 1 := by
          simp [List.findIdx_cons, hp]
        rw [hfix, List.getD_cons_succ]
        exact ⟨Nat.succ_lt_succ ih1, ih2⟩

/-- With pairwise-distinct player numbers, `findIdx` of the number found at
index `i` returns `i` itself. -/
theorem findIdx_getD_number (pbn : List GPlayer)
    (hnd : (pbn.map (fun p => p.number)).Nodup) (i : Nat) (hi : i < pbn.length) :
    pbn.findIdx (fun p => p.number = (pbn.getD i dPlayer).number) = i := by
  induction pbn generalizing i with
  | nil => exact absurd hi (by simp)
  | cons p ps ih =>
    simp only [List.map_cons, List.nodup_cons] at hnd
    rcases i with _ | j
    · simp [List.findIdx_cons]
    · have hj : j < ps.length := Nat.lt_of_succ_lt_succ hi
      have hmem : ps.getD j dPlayer ∈ ps := by
        rw [List.getD_eq_getElem?_getD, List.getElem?_eq_getElem hj]
        exact List.getElem_mem hj
      have hpnum : ¬ (p.number = (ps.getD j dPlayer).number) := fun he =>
        hnd.1 (he ▸ List.mem_map_of_mem (fun p => p.number) hmem)
      rw [List.getD_cons_succ, List.findIdx_cons, decide_eq_false hpnum, cond_false,
        ih hnd.2 j hj]

/-- The refill while-loop moves exactly the first `6 - handSize` deck cards
(all of them if fewer) to the back of the hand. -/
theorem drawLoop_eq (h d : List Card) :
    drawLoop h d = (h ++ d.take (6 - h.length), d.drop (6 - h.length)) := by
  induction d generalizing h with
  | nil => simp [drawLoop]
  | cons c rest ih =>
    rw [drawLoop]
    split
    · rename_i hlt
      rw [ih (h ++ [c])]
      have h6 : 6 - h.length = (6 - (h.length + 1)) + 1 := by omega
      simp [h6, List.append_assoc]
    · rename_i hge
      have h0 : 6 - h.length = 0 := by omega
      simp [h0]

/-- One refill visit of the source coincides with the spec-side visit. -/
theorem refillOne_eq_spec (ps : List GPlayer) (d : List Card) (num : Nat) :
    refillOne ps d num = refillSpecOne ps d num := by
  rcases hf : ps.find? (fun p => p.number = num) with _ | p
  · simp only [refillOne, refillSpecOne, hf]
  · simp only [refillOne, refillSpecOne, hf]
    split
    · rfl
    · simp [drawLoop_eq]

/-- Replacing a hand with `updateHand` does not change the sequence of player
numbers. -/
theorem updateHand_map_number (ps : List GPlayer) (num : Nat) (h : List Card) :
    (updateHand ps num h).map (fun p => p.number) = ps.map (fun p => p.number) := by
  induction ps with
  | nil => rfl
  | cons p ps ih =>
    simp only [updateHand, List.map_cons] at ih ⊢
    refine congrArg₂ List.cons ?_ ih
    split <;> rfl

/-- One refill visit does not change the sequence of player numbers. -/
theorem refillOne_map_number (ps : List GPlayer) (d : List Card) (num : Nat) :
    ((refillOne ps d num).1).map (fun p => p.number) = ps.map (fun p => p.number) := by
  rcases hf : ps.find? (fun p => p.number = num) with _ | p
  · simp only [refillOne, hf]
  · simp only [refillOne, hf]
    split
    · rfl
    · simp [updateHand_map_number]

/-- A player whose hand is empty is untouched by a refill visit (visits only
update a player found with a non-empty hand; numbers are unique). -/
theorem refillOne_preserves_empty (ps : List GPlayer) (d : List Card) (num : Nat)
    (hnd : (ps.map (fun p => p.number)).Nodup) (p : GPlayer) (hp : p ∈ ps)
    (he : p.hand = []) : p ∈ (refillOne ps d num).1 := by
  rcases hf : ps.find? (fun q => q.number = num) with _ | q
  · simp only [refillOne, hf]
    exact hp
  · simp only [refillOne, hf]
    split
    · exact hp
    · rename_i hqe
      have hq_mem : q ∈ ps := List.mem_of_find?_eq_some hf
      have hq_num : q.number = num := by simpa using List.find?_some hf
      have hp_ne : ¬ p.number = num := by
        intro hpe
        have hpq : p = q :=
          List.inj_on_of_nodup_map hnd hp hq_mem (by rw [hpe, hq_num])
        exact hqe (by simp [← hpq, he])
      unfold updateHand
      exact List.mem_map.mpr ⟨p, hp, by simp [hp_ne]⟩

/-- Through the whole refill pass, an empty-handed player stays in place
unchanged, and the sequence of player numbers is preserved. -/
theorem refillFold_empty (order : List Nat) :
    ∀ (ps : List GPlayer) (d : List Card) (p : GPlayer),
      (ps.map (fun p => p.number)).Nodup → p ∈ ps → p.hand = [] →
      p ∈ (order.foldl (fun acc num => refillOne acc.1 acc.2 num) (ps, d)).1 ∧
      ((order.foldl (fun acc num => refillOne acc.1 acc.2 num) (ps, d)).1).map
          (fun p => p.number) = ps.map (fun p => p.number) := by
  induction order with
  | nil =>
    intro ps d p hnd hp he
    exact ⟨hp, rfl⟩
  | cons num order ih =>
    intro ps d p hnd hp he
    simp only [List.foldl_cons]
    have h1 := refillOne_map_number ps d num
    have hnd' : (((refillOne ps d num).1).map (fun p => p.number)).Nodup := by
      rw [h1]
      exact hnd
    have hp' := refillOne_preserves_empty ps d num hnd p hp he
    obtain ⟨ha, hb⟩ :=
      ih (refillOne ps d num).1 (refillOne ps d num).2 p hnd' hp' he
    exact ⟨ha, hb.trans h1⟩

/-- Undefended indices of a table headed by a defended pair: the tail's
undefended indices, shifted by one. -/
theorem undefendedIdxs_cons_some (a : Card) (d : Card) (t : List TablePair) :
    undefendedIdxs ((a, some d) :: t) = (undefendedIdxs t).map (· + 1) := by
  unfold undefendedIdxs
  rw [List.length_cons, List.range_succ_eq_map, List.filter_cons, List.filter_map]
  rfl

/-- Undefended indices of a table headed by an undefended pair: index 0 plus
the tail's undefended indices shifted by one. -/
theorem undefendedIdxs_cons_none (a : Card) (t : List TablePair) :
    undefendedIdxs ((a, none) :: t) = 0 :: (undefendedIdxs t).map (· + 1) := by
  unfold undefendedIdxs
  rw [List.length_cons, List.range_succ_eq_map, List.filter_cons, List.filter_map]
  rfl

/-- Applying defenses whose indices are all shifted by one over a table with
an extra head pair leaves the head pair alone and acts on the tail. -/
theorem defendApply_shift (pairs : List (Nat × Card)) (x : TablePair)
    (t : List TablePair) (h0 : List Card) :
    defendApply (pairs.map (fun ic => (ic.1 + 1, ic.2))) (x :: t) h0 =
      (x :: (defendApply pairs t h0).1,
       (defendApply pairs t h0).2.1, (defendApply pairs t h0).2.2) := by
  induction pairs generalizing t h0 with
  | nil => rfl
  | cons ic rest ih =>
    rcases ic with ⟨i, c⟩
    simp only [List.map_cons, defendApply, List.set_cons_succ, List.getD_cons_succ]
    cases removeFirst h0 c with
    | none => rfl
    | some h1 => simp only [ih]

/-- A fully successful defend-apply run over the undefended indices produces
exactly the positional fill of the table and the sequential removal of the
supplied cards from the hand. -/
theorem defendApply_fill (t : List TablePair) :
    ∀ (cards h0 : List Card) (t' : List TablePair) (h' : List Card),
      cards.length = (undefendedIdxs t).length →
      defendApply ((undefendedIdxs t).zip cards) t h0 = (t', h', true) →
      t' = fillTable t cards ∧ removeList h0 cards = some h' := by
  induction t with
  | nil =>
    intro cards h0 t' h' hlen happ
    have hc : cards = [] := List.length_eq_zero.mp (by simpa [undefendedIdxs] using hlen)
    subst hc
    simp only [undefendedIdxs, List.range_zero, List.filter_nil, List.zip_nil_left,
      defendApply, Prod.mk.injEq] at happ
    exact ⟨happ.1.symm, by simp [removeList, happ.2.1]⟩
  | cons x t ih =>
    rcases x with ⟨a, od⟩
    cases od with
    | some d =>
      intro cards h0 t' h' hlen happ
      rw [undefendedIdxs_cons_some] at hlen happ
      rw [List.zip_map_left,
        show (Prod.map (· + 1) id : Nat × Card → Nat × Card) =
          (fun ic => (ic.1 + 1, ic.2)) from funext fun ic => rfl,
        defendApply_shift] at happ
      have ht' : t' = (a, some d) :: (defendApply ((undefendedIdxs t).zip cards) t h0).1 :=
        (congrArg Prod.fst happ).symm
      have hh' : (defendApply ((undefendedIdxs t).zip cards) t h0).2.1 = h' :=
        congrArg (fun z => z.2.1) happ
      have hok : (defendApply ((undefendedIdxs t).zip cards) t h0).2.2 = true :=
        congrArg (fun z => z.2.2) happ
      have heq : defendApply ((undefendedIdxs t).zip cards) t h0 =
          ((defendApply ((undefendedIdxs t).zip cards) t h0).1, h', true) := by
        rw [← hh', ← hok]
      obtain ⟨ihl, ihr⟩ := ih cards h0 _ h' (by simpa using hlen) heq
      exact ⟨by rw [ht', ihl]; rfl, ihr⟩
    | none =>
      intro cards h0 t' h' hlen happ
      rw [undefendedIdxs_cons_none] at hlen happ
      rcases cards with _ | ⟨c, cs⟩
      · simp at hlen
      rw [List.zip_cons_cons, List.zip_map_left,
        show (Prod.map (· + 1) id : Nat × Card → Nat × Card) =
          (fun ic => (ic.1 + 1, ic.2)) from funext fun ic => rfl] at happ
      simp only [defendApply, List.set_cons_zero, List.getD_cons_zero] at happ
      cases hrf : removeFirst h0 c with
      | none =>
        simp only [hrf] at happ
        exact absurd (congrArg (fun z => z.2.2) happ) (by simp)
      | some h1 =>
        simp only [hrf] at happ
        rw [defendApply_shift] at happ
        have ht' : t' = (a, some c) :: (defendApply ((undefendedIdxs t).zip cs) t h1).1 :=
          (congrArg Prod.fst happ).symm
        have hh' : (defendApply ((undefendedIdxs t).zip cs) t h1).2.1 = h' :=
          congrArg (fun z => z.2.1) happ
        have hok : (defendApply ((undefendedIdxs t).zip cs) t h1).2.2 = true :=
          congrArg (fun z => z.2.2) happ
        have heq : defendApply ((undefendedIdxs t).zip cs) t h1 =
            ((defendApply ((undefendedIdxs t).zip cs) t h1).1, h', true) := by
          rw [← hh', ← hok]
        obtain ⟨ihl, ihr⟩ := ih cs h1 _ h' (by simpa using hlen) heq
        refine ⟨by rw [ht', ihl]; rfl, ?_⟩
        simp [removeList, hrf, ihr]

/-- Removing one card permutes the hand into that card plus the remainder. -/
theorem removeFirst_perm (h : List Card) (c : Card) (h1 : List Card)
    (hr : removeFirst h c = some h1) : h.Perm (c :: h1) := by
  induction h generalizing h1 with
  | nil => simp [removeFirst] at hr
  | cons x xs ih =>
    simp only [removeFirst] at hr
    split at hr
    · rename_i hx
      obtain rfl : xs = h1 := by injection hr
      subst hx
      exact List.Perm.refl _
    · rename_i hx
      rcases Option.map_eq_some'.mp hr with ⟨h2, hmm, rfl⟩
      exact ((ih h2 hmm).cons x).trans (List.Perm.swap c x h2)

/-- Removing a list of cards permutes the hand into those cards plus the
remainder. -/
theorem removeList_perm (cs : List Card) : ∀ (h h' : List Card),
    removeList h cs = some h' → h.Perm (cs ++ h') := by
  induction cs with
  | nil =>
    intro h h' hr
    simp only [removeList] at hr
    obtain rfl : h = h' := by injection hr
    simp
  | cons c cs ih =>
    intro h h' hr
    simp only [removeList] at hr
    cases hrf : removeFirst h c with
    | none =>
      rw [hrf] at hr
      exact absurd hr (by simp)
    | some h1 =>
      rw [hrf] at hr
      exact (removeFirst_perm h c h1 hrf).trans ((ih h1 h' hr).cons c)

/-- Filling a table never changes its attack cards or their order. -/
theorem fillTable_map_fst (t : List TablePair) :
    ∀ cs, (fillTable t cs).map Prod.fst = t.map Prod.fst := by
  induction t with
  | nil =>
    intro cs
    rfl
  | cons x t ih =>
    intro cs
    rcases x with ⟨a, od⟩
    cases od with
    | none =>
      cases cs with
      | nil => rfl
      | cons c cs' => simp [fillTable, ih]
    | some d => simp [fillTable, ih]

/-- Filling a table preserves its length. -/
theorem fillTable_length (t : List TablePair) (cs : List Card) :
    (fillTable t cs).length = t.length := by
  have h := congrArg List.length (fillTable_map_fst t cs)
  simpa using h

/-- With as many cards as undefended pairs, filling defends every pair. -/
theorem fillTable_all_some (t : List TablePair) :
    ∀ cs, cs.length = (undefendedIdxs t).length →
      ∀ pr ∈ fillTable t cs, pr.2.isSome := by
  induction t with
  | nil =>
    intro cs hlen pr hpr
    simp [fillTable] at hpr
  | cons x t ih =>
    rcases x with ⟨a, od⟩
    cases od with
    | some d =>
      intro cs hlen pr hpr
      rw [undefendedIdxs_cons_some] at hlen
      simp only [fillTable, List.mem_cons] at hpr
      rcases hpr with rfl | hpr
      · simp
      · exact ih cs (by simpa using hlen) pr hpr
    | none =>
      intro cs hlen pr hpr
      rw [undefendedIdxs_cons_none] at hlen
      rcases cs with _ | ⟨c, cs'⟩
      · simp at hlen
      simp only [fillTable, List.mem_cons] at hpr
      rcases hpr with rfl | hpr
      · simp
      · exact ih cs' (by simpa using hlen) pr hpr

/-- Lookup `find?` by number through `updateHand` finds the same player, with
the replaced hand. -/
theorem find?_updateHand (ps : List GPlayer) (num : Nat) (h : List Card) :
    (updateHand ps num h).find? (fun p => p.number = num) =
      ((ps.find? fun p => p.number = num).map fun p => { p with hand := h }) := by
  induction ps with
  | nil => rfl
  | cons p ps ih =>
    by_cases hp : p.number = num
    · rw [show updateHand (p :: ps) num h = { p with hand := h } :: updateHand ps num h
          from by simp [updateHand, hp],
        List.find?_cons_of_pos _ (by simpa using hp),
        List.find?_cons_of_pos _ (by simpa using hp)]
      rfl
    · rw [show updateHand (p :: ps) num h = p :: updateHand ps num h
          from by simp [updateHand, hp],
        List.find?_cons_of_neg _ (by simpa using hp),
        List.find?_cons_of_neg _ (by simpa using hp)]
      exact ih

end Durak


/-- Claim C7: with fixed remaining players and turn numbers, endTurn is a
pure function of (old attacker, old defender, turnTaken): when turnTaken,
new attacker = the player immediately after the old defender in turn-number
rotation (wraparound) and new defender = the player after the new attacker;
otherwise new attacker = the old defender and new defender = the player
after the new attacker. -/
theorem claim_C7 (sv : Durak.Server)
    (hmem : sv.defender ∈ (Durak.sortByNumber sv.players).map (fun p => p.number))
    (hnd : ((Durak.sortByNumber sv.players).map (fun p => p.number)).Nodup) :
    (∀ tt, ((Durak.end_turn sv tt).1.attacker, (Durak.end_turn sv tt).1.defender) =
        Durak.end_turn_assign (Durak.sortByNumber sv.players) sv.defender tt) ∧
    Durak.end_turn_assign (Durak.sortByNumber sv.players) sv.defender false =
      (sv.defender, Durak.nextAfter (Durak.sortByNumber sv.players) sv.defender) ∧
    Durak.end_turn_assign (Durak.sortByNumber sv.players) sv.defender true =
      (Durak.nextAfter (Durak.sortByNumber sv.players) sv.defender,
       Durak.nextAfter (Durak.sortByNumber sv.players)
         (Durak.nextAfter (Durak.sortByNumber sv.players) sv.defender)) := by
  have hlen : 0 < (Durak.sortByNumber sv.players).length := by
    rcases hpb : Durak.sortByNumber sv.players with _ | ⟨q, qs⟩
    · rw [hpb] at hmem
      simp at hmem
    · simp
  obtain ⟨hdi_lt, hdi_num⟩ :=
    Durak.getD_findIdx_number (Durak.sortByNumber sv.players) sv.defender hmem
  refine ⟨fun tt => ?_, ?_, ?_⟩
  · have ha : (Durak.end_turn sv tt).1.attacker =
        (Durak.end_turn_assign (Durak.sortByNumber sv.players) sv.defender tt).1 := by
      simp only [Durak.end_turn]
      repeat' split
      all_goals rfl
    have hd : (Durak.end_turn sv tt).1.defender =
        (Durak.end_turn_assign (Durak.sortByNumber sv.players) sv.defender tt).2 := by
      simp only [Durak.end_turn]
      repeat' split
      all_goals rfl
    rw [ha, hd]
  · simp only [Durak.end_turn_assign, Durak.nextAfter, Bool.false_eq_true, if_false]
    exact Prod.ext hdi_num rfl
  · have hmod : ((Durak.sortByNumber sv.players).findIdx
        (fun p => p.number = sv.defender) + 1) % (Durak.sortByNumber sv.players).length <
        (Durak.sortByNumber sv.players).length := Nat.mod_lt _ hlen
    have h2 := Durak.findIdx_getD_number (Durak.sortByNumber sv.players) hnd _ hmod
    simp only [Durak.end_turn_assign, Durak.nextAfter, if_true]
    rw [h2]

/-- Witness for claim C7 at the concrete state `svC7` (players 1,2,3;
defender 2): with turnTaken the new pair is (3, 1), without it (2, 3). -/
theorem claim_C7_witness :
    (∀ tt, ((Durak.end_turn Durak.svC7 tt).1.attacker,
        (Durak.end_turn Durak.svC7 tt).1.defender) =
        Durak.end_turn_assign (Durak.sortByNumber Durak.svC7.players)
          Durak.svC7.defender tt) ∧
    Durak.end_turn_assign (Durak.sortByNumber Durak.svC7.players)
        Durak.svC7.defender false =
      (Durak.svC7.defender,
       Durak.nextAfter (Durak.sortByNumber Durak.svC7.players) Durak.svC7.defender) ∧
    Durak.end_turn_assign (Durak.sortByNumber Durak.svC7.players)
        Durak.svC7.defender true =
      (Durak.nextAfter (Durak.sortByNumber Durak.svC7.players) Durak.svC7.defender,
       Durak.nextAfter (Durak.sortByNumber Durak.svC7.players)
         (Durak.nextAfter (Durak.sortByNumber Durak.svC7.players)
           Durak.svC7.defender)) :=
  claim_C7 Durak.svC7 (by decide) (by decide)

/-- Claim C8: during end-of-turn refill players are visited in turn-number
rotation order from the new attacker; every visited non-empty hand draws from
the front of the deck until it has 6 cards or the deck is empty; empty hands
are skipped; after the pass every empty-handed player leaves the active set
and joins finishedPlayers, even if cards remain in the deck
(`refill_hands = refillSpec`, plus the elimination facts spelled out). -/
theorem claim_C8 (sv : Durak.Server)
    (hnd : (sv.players.map (fun p => p.number)).Nodup) :
    Durak.refill_hands sv = Durak.refillSpec sv ∧
    ∀ p ∈ sv.players, p.hand = [] →
      p.number ∈ (Durak.refill_hands sv).finished_players ∧
      ∀ q ∈ (Durak.refill_hands sv).players, q.number ≠ p.number := by
  have hfun : Durak.refillOne = Durak.refillSpecOne :=
    funext fun ps => funext fun d => funext fun num => Durak.refillOne_eq_spec ps d num
  constructor
  · unfold Durak.refill_hands Durak.refillSpec
    rw [hfun]
  · intro p hp he
    obtain ⟨hmem, hmapeq⟩ :=
      Durak.refillFold_empty (Durak.refillOrder sv.players sv.attacker)
        sv.players sv.deck p hnd hp he
    have hfin : (Durak.refill_hands sv).finished_players =
        sv.finished_players ++
          ((((Durak.refillOrder sv.players sv.attacker).foldl
              (fun acc num => Durak.refillOne acc.1 acc.2 num)
              (sv.players, sv.deck)).1.filter
            (fun p => p.hand.isEmpty)).map (fun p => p.number)) := rfl
    have hply : (Durak.refill_hands sv).players =
        ((Durak.refillOrder sv.players sv.attacker).foldl
            (fun acc num => Durak.refillOne acc.1 acc.2 num)
            (sv.players, sv.deck)).1.filter (fun p => !p.hand.isEmpty) := rfl
    constructor
    · rw [hfin]
      refine List.mem_append_right _ ?_
      exact List.mem_map.mpr ⟨p, List.mem_filter.mpr ⟨hmem, by simp [he]⟩, rfl⟩
    · intro q hq hqp
      rw [hply] at hq
      have hq' := List.mem_filter.mp hq
      have hnd2 : ((((Durak.refillOrder sv.players sv.attacker).foldl
          (fun acc num => Durak.refillOne acc.1 acc.2 num)
          (sv.players, sv.deck)).1).map (fun p => p.number)).Nodup := by
        rw [hmapeq]
        exact hnd
      have hqp' : q = p := List.inj_on_of_nodup_map hnd2 hq'.1 hmem hqp
      rw [hqp'] at hq'
      simp [he] at hq'

/-- Witness for claim C8: two players, player 2 with an empty hand; the refill
tops player 1 up to 6 cards from the front of the deck, skips player 2, and
eliminates player 2 into the finished players although the deck still holds
cards. -/
theorem claim_C8_witness :
    (Durak.refill_hands Durak.svC8 = Durak.refillSpec Durak.svC8 ∧
      ∀ p ∈ Durak.svC8.players, p.hand = [] →
        p.number ∈ (Durak.refill_hands Durak.svC8).finished_players ∧
        ∀ q ∈ (Durak.refill_hands Durak.svC8).players, q.number ≠ p.number) ∧
    (Durak.refill_hands Durak.svC8).deck ≠ [] ∧
    (Durak.refill_hands Durak.svC8).players.length = 1 ∧
    (Durak.refill_hands Durak.svC8).finished_players = [2] :=
  ⟨claim_C8 Durak.svC8 (by decide), by decide, by decide, by decide⟩

/-- Claim C9: whenever elimination at end of turn reduces the active player
set to exactly one player, the session transitions to FINISHED, that sole
remaining player is reported as the Durak, the finishedPlayers identities are
reported as the winners, and no further turn is started (every subsequent
play or defend is rejected by the active-game guard with no mutation). -/
theorem claim_C9 (sv : Durak.Server) (tt : Bool)
    (h1 : (Durak.end_turn sv tt).1.players.length = 1) :
    (Durak.end_turn sv tt).1.state = Durak.GState.finished ∧
    (Durak.end_turn sv tt).2 =
      some ⟨((Durak.end_turn sv tt).1.players.getD 0 Durak.dPlayer).number,
            (Durak.end_turn sv tt).1.finished_players⟩ ∧
    (∀ cards, Durak.play (Durak.end_turn sv tt).1 cards =
      ((Durak.end_turn sv tt).1, Durak.PlayOutcome.errNotActive)) ∧
    (∀ cards, Durak.defend (Durak.end_turn sv tt).1 cards =
      ((Durak.end_turn sv tt).1, Durak.DefendOutcome.errNotActive)) := by
  simp only [Durak.end_turn] at h1 ⊢
  split at h1
  · rename_i hc
    rw [if_pos hc]
    refine ⟨rfl, rfl, ?_, ?_⟩
    · intro cards
      simp [Durak.play]
    · intro cards
      simp [Durak.defend]
  · rename_i hc
    split at h1
    · simp only at h1
      exact absurd h1 hc
    · simp only at h1
      exact absurd h1 hc

/-- Witness for claim C9 at `svC9`: ending the turn eliminates player 2,
finishing the game with player 1 as Durak and player 2 as winner. -/
theorem claim_C9_witness :
    (Durak.end_turn Durak.svC9 false).1.state = Durak.GState.finished ∧
    (Durak.end_turn Durak.svC9 false).2 =
      some ⟨((Durak.end_turn Durak.svC9 false).1.players.getD 0
              Durak.dPlayer).number,
            (Durak.end_turn Durak.svC9 false).1.finished_players⟩ ∧
    (∀ cards, Durak.play (Durak.end_turn Durak.svC9 false).1 cards =
      ((Durak.end_turn Durak.svC9 false).1, Durak.PlayOutcome.errNotActive)) ∧
    (∀ cards, Durak.defend (Durak.end_turn Durak.svC9 false).1 cards =
      ((Durak.end_turn Durak.svC9 false).1, Durak.DefendOutcome.errNotActive)) :=
  claim_C9 Durak.svC9 false (by decide)

/-- Claim C10: every successful defend call is a pure fill-in of the table —
it keeps the number of pairs, every attack card and the pair order, fills
exactly the previously undefended pairs (positionally, in table order), and
changes nothing else: the deck, the attacker/defender assignment, the state,
the finished players and every non-defender hand are untouched, while the
defender's hand loses exactly the supplied cards. -/
theorem claim_C10 (sv : Durak.Server) (cards : List Durak.Card)
    (hok : (Durak.defend sv cards).2 = Durak.DefendOutcome.ok) :
    (Durak.defend sv cards).1.table = Durak.fillTable sv.table cards ∧
    (Durak.defend sv cards).1.table.map Prod.fst = sv.table.map Prod.fst ∧
    (Durak.defend sv cards).1.table.length = sv.table.length ∧
    (∀ pr ∈ (Durak.defend sv cards).1.table, pr.2.isSome) ∧
    List.Perm (cards ++ Durak.handOf (Durak.defend sv cards).1 sv.defender)
      (Durak.handOf sv sv.defender) ∧
    (Durak.defend sv cards).1.deck = sv.deck ∧
    (Durak.defend sv cards).1.attacker = sv.attacker ∧
    (Durak.defend sv cards).1.defender = sv.defender ∧
    (Durak.defend sv cards).1.finished_players = sv.finished_players ∧
    (Durak.defend sv cards).1.state = sv.state ∧
    (∀ p ∈ sv.players, p.number ≠ sv.defender →
      p ∈ (Durak.defend sv cards).1.players) := by
  by_cases h1 : sv.state ≠ Durak.GState.playing
  · exfalso
    simp [Durak.defend, h1] at hok
  by_cases h2 : sv.table = []
  · exfalso
    simp [Durak.defend, h1, h2] at hok
  by_cases h3 : sv.table.all (fun pr => pr.2.isSome) = true
  · exfalso
    simp [Durak.defend, h1, h2, h3] at hok
  by_cases h4 : cards = []
  · exfalso
    simp [Durak.defend, h1, h2, h3, h4] at hok
  by_cases h5 : ¬ Durak.cards_are_in_hand (Durak.handOf sv sv.defender) cards = true
  · exfalso
    simp [Durak.defend, h1, h2, h3, h4, h5] at hok
  by_cases h6 : cards.length ≠ (Durak.undefendedIdxs sv.table).length
  · exfalso
    simp [Durak.defend, h1, h2, h3, h4, h5, h6] at hok
  by_cases h7 : ¬ ((Durak.undefendedIdxs sv.table).zip cards).all
      (fun ic => Durak.is_defence_success sv.trump_card.suit
        ((sv.table.getD ic.1 Durak.dPair).1) ic.2) = true
  · exfalso
    simp only [Durak.defend] at hok
    rw [if_neg h1, if_neg h2, if_neg h3, if_neg h4, if_neg h5, if_neg h6,
      if_pos h7] at hok
    exact absurd hok (by simp)
  rcases hda : Durak.defendApply ((Durak.undefendedIdxs sv.table).zip cards)
      sv.table (Durak.handOf sv sv.defender) with ⟨t', hh, ok⟩
  have hdef : Durak.defend sv cards =
      (Durak.Server.mk sv.state (Durak.updateHand sv.players sv.defender hh)
        sv.deck sv.trump_card sv.trump_taken t' sv.attacker sv.defender
        sv.finished_players sv.discard,
       if ok then Durak.DefendOutcome.ok else Durak.DefendOutcome.errValueError) := by
    simp only [Durak.defend]
    rw [if_neg h1, if_neg h2, if_neg h3, if_neg h4, if_neg h5, if_neg h6,
      if_neg h7, hda]
  have hok2 : ok = true := by
    rcases ok with _ | _
    · rw [hdef] at hok
      exact absurd hok (by simp)
    · rfl
  subst hok2
  have hlen : cards.length = (Durak.undefendedIdxs sv.table).length :=
    not_ne_iff.mp h6
  obtain ⟨hfill, hrem⟩ := Durak.defendApply_fill sv.table cards
    (Durak.handOf sv sv.defender) t' hh hlen hda
  have hperm := Durak.removeList_perm cards (Durak.handOf sv sv.defender) hh hrem
  have hin : Durak.cards_are_in_hand (Durak.handOf sv sv.defender) cards = true :=
    not_not.mp h5
  obtain ⟨q, hq⟩ : ∃ q, sv.players.find? (fun p => p.number = sv.defender) = some q := by
    cases hf : sv.players.find? (fun p => p.number = sv.defender) with
    | some q => exact ⟨q, rfl⟩
    | none =>
      exfalso
      rcases List.exists_cons_of_ne_nil h4 with ⟨c, cs, rfl⟩
      simp [Durak.cards_are_in_hand, Durak.handOf, hf, Durak.dPlayer] at hin
  have hhand : Durak.handOf (Durak.defend sv cards).1 sv.defender = hh := by
    rw [hdef]
    simp [Durak.handOf, Durak.find?_updateHand, hq]
  refine ⟨?_, ?_, ?_, ?_, ?_, ?_, ?_, ?_, ?_, ?_, ?_⟩
  · rw [hdef]
    exact hfill
  · rw [hdef]
    show t'.map Prod.fst = sv.table.map Prod.fst
    rw [hfill]
    exact Durak.fillTable_map_fst sv.table cards
  · rw [hdef]
    show t'.length = sv.table.length
    rw [hfill]
    exact Durak.fillTable_length sv.table cards
  · rw [hdef]
    show ∀ pr ∈ t', pr.2.isSome
    rw [hfill]
    exact Durak.fillTable_all_some sv.table cards hlen
  · rw [hhand]
    exact hperm.symm
  · rw [hdef]
  · rw [hdef]
  · rw [hdef]
  · rw [hdef]
  · rw [hdef]
  · intro p hp hpne
    rw [hdef]
    show p ∈ Durak.updateHand sv.players sv.defender hh
    unfold Durak.updateHand
    exact List.mem_map.mpr ⟨p, hp, by simp [hpne]⟩

/-- Witness for claim C10 at `svC10`: defending the lone 7♠ with 8♠ succeeds
and all the frame conditions hold at that concrete call. -/
theorem claim_C10_witness :
    (Durak.defend Durak.svC10 [⟨.r8, .spades⟩]).1.table =
        Durak.fillTable Durak.svC10.table [⟨.r8, .spades⟩] ∧
    (Durak.defend Durak.svC10 [⟨.r8, .spades⟩]).1.table.map Prod.fst =
        Durak.svC10.table.map Prod.fst ∧
    (Durak.defend Durak.svC10 [⟨.r8, .spades⟩]).1.table.length =
        Durak.svC10.table.length ∧
    (∀ pr ∈ (Durak.defend Durak.svC10 [⟨.r8, .spades⟩]).1.table, pr.2.isSome) ∧
    List.Perm ([(⟨.r8, .spades⟩ : Durak.Card)] ++
        Durak.handOf (Durak.defend Durak.svC10 [⟨.r8, .spades⟩]).1
          Durak.svC10.defender)
      (Durak.handOf Durak.svC10 Durak.svC10.defender) ∧
    (Durak.defend Durak.svC10 [⟨.r8, .spades⟩]).1.deck = Durak.svC10.deck ∧
    (Durak.defend Durak.svC10 [⟨.r8, .spades⟩]).1.attacker = Durak.svC10.attacker ∧
    (Durak.defend Durak.svC10 [⟨.r8, .spades⟩]).1.defender = Durak.svC10.defender ∧
    (Durak.defend Durak.svC10 [⟨.r8, .spades⟩]).1.finished_players =
        Durak.svC10.finished_players ∧
    (Durak.defend Durak.svC10 [⟨.r8, .spades⟩]).1.state = Durak.svC10.state ∧
    (∀ p ∈ Durak.svC10.players, p.number ≠ Durak.svC10.defender →
      p ∈ (Durak.defend Durak.svC10 [⟨.r8, .spades⟩]).1.players) :=
  claim_C10 Durak.svC10 [⟨.r8, .spades⟩] (by decide)

/-- Claim C5 counterexample: a defend call can be rejected and still mutate
the table and the defender's hand.  In `sC5` the defender supplies the card
string 9♥️ twice while holding one 9♥: the hand check
(`cards_are_in_hand`, string membership), the count check and the validity
check all pass, then the apply loop fills the first slot, removes the 9♥,
fills the second slot and fails on `hand.remove` — the caught `ValueError`
leaves both table slots filled and the hand short one card. -/
theorem claim_C5_counterexample :
    (Durak.defend Durak.sC5 [⟨.r9, .hearts⟩, ⟨.r9, .hearts⟩]).2 ≠
        Durak.DefendOutcome.ok ∧
    (Durak.defend Durak.sC5 [⟨.r9, .hearts⟩, ⟨.r9, .hearts⟩]).1.table ≠
        Durak.sC5.table ∧
    Durak.handOf (Durak.defend Durak.sC5 [⟨.r9, .hearts⟩, ⟨.r9, .hearts⟩]).1 2 ≠
        Durak.handOf Durak.sC5 2 := by
  decide

/-- Claim C5 (amended): every defend call rejected by the explicit checks —
game not active, empty table, already fully defended, no cards supplied, a
card not owned, wrong card count, or an invalid pairing — leaves the server
state (in particular the table and the defender's hand) unchanged; only a
call that passes all those checks and then fails during card removal
(supplying the same card more often than held) leaves a partial mutation. -/
theorem claim_C5_amended (sv : Durak.Server) (cards : List Durak.Card)
    (hrej : (Durak.defend sv cards).2 ≠ Durak.DefendOutcome.ok)
    (hnotv : (Durak.defend sv cards).2 ≠ Durak.DefendOutcome.errValueError) :
    (Durak.defend sv cards).1 = sv := by
  by_cases h1 : sv.state ≠ Durak.GState.playing
  · simp [Durak.defend, h1]
  by_cases h2 : sv.table = []
  · simp [Durak.defend, h1, h2]
  by_cases h3 : sv.table.all (fun pr => pr.2.isSome) = true
  · simp [Durak.defend, h1, h2, h3]
  by_cases h4 : cards = []
  · simp [Durak.defend, h1, h2, h3, h4]
  by_cases h5 : ¬ Durak.cards_are_in_hand (Durak.handOf sv sv.defender) cards = true
  · simp [Durak.defend, h1, h2, h3, h4, h5]
  by_cases h6 : cards.length ≠ (Durak.undefendedIdxs sv.table).length
  · simp [Durak.defend, h1, h2, h3, h4, h5, h6]
  by_cases h7 : ¬ ((Durak.undefendedIdxs sv.table).zip cards).all
      (fun ic => Durak.is_defence_success sv.trump_card.suit
        ((sv.table.getD ic.1 Durak.dPair).1) ic.2) = true
  · simp only [Durak.defend]
    rw [if_neg h1, if_neg h2, if_neg h3, if_neg h4, if_neg h5, if_neg h6, if_pos h7]
  exfalso
  simp only [Durak.defend] at hrej hnotv
  rw [if_neg h1, if_neg h2, if_neg h3, if_neg h4, if_neg h5, if_neg h6, if_neg h7]
    at hrej hnotv
  rcases hda : Durak.defendApply ((Durak.undefendedIdxs sv.table).zip cards)
      sv.table (Durak.handOf sv sv.defender) with ⟨t', h', ok⟩
  simp only [hda] at hrej hnotv
  cases ok
  · exact absurd rfl hnotv
  · exact absurd rfl hrej

/-- Witness for the amended claim C5: in `sC5` a defend call with a single
card is rejected by the wrong-count check (two pairs are undefended) and the
state is unchanged. -/
theorem claim_C5_amended_witness :
    (Durak.defend Durak.sC5 [⟨.r9, .hearts⟩]).1 = Durak.sC5 :=
  claim_C5_amended Durak.sC5 [⟨.r9, .hearts⟩] (by decide) (by decide)

/-- Claim C1: for every state reachable from a started game the multiset
union of deck, hands, table cards, turn-end discards and eliminated players'
released cards equals the canonical deck, no card duplicated and none lost.
The code violates this: `commands.defend` writes each table slot BEFORE
removing the defense card from the defender's hand, so a defend call
supplying the same card string twice passes every pre-check (string-based
hand membership, count, validity), fills two table slots with the same card,
then fails on the second `hand.remove` — the caught `ValueError` leaves the
card duplicated.  Concretely: from started game `sC1_0` (a permutation of
the canonical deck), after `play 7♠ 7♣` and `defend 8♥️ 8♥️` the card 8♥
occurs twice in the union while the canonical deck holds it once. -/
theorem claim_C1_eval :
    Durak.deckC1.Perm Durak.Card.create_deck ∧
    (Durak.play Durak.sC1_0 [⟨.r7, .spades⟩, ⟨.r7, .clubs⟩]).2 = Durak.PlayOutcome.ok ∧
    (Durak.locCards Durak.sC1_1).count ⟨.r8, .hearts⟩ = 1 ∧
    (Durak.locCards Durak.sC1_2).count ⟨.r8, .hearts⟩ = 2 ∧
    Durak.Card.create_deck.count ⟨.r8, .hearts⟩ = 1 := by
  decide

/-- Claim C6: start() selects as first attacker the holder of the
lowest-rank trump card in the 6..A face-value order.  The code
(`commands.start_game` line 98) instead compares the rank LABEL STRINGS with
Python string `<`, under which "A" < "J" (code point 65 < 74).  Concretely:
from shuffle `deckC6` (a permutation of the canonical deck, trump hearts),
player 1's only trump is A♥ and player 2's only trump is J♥; J has the lower
face value, so the claim requires player 2 — the code picks player 1. -/
theorem claim_C6_eval :
    Durak.deckC6.Perm Durak.Card.create_deck ∧
    (Durak.start_game Durak.deckC6 2).trump_card.suit = Durak.Suit.hearts ∧
    (Durak.start_game Durak.deckC6 2).attacker = 1 ∧
    (⟨.rJ, .hearts⟩ : Durak.Card) ∈ Durak.handOf (Durak.start_game Durak.deckC6 2) 2 ∧
    (∀ c ∈ Durak.handOf (Durak.start_game Durak.deckC6 2) 1,
      c.suit = Durak.Suit.hearts → Durak.rankValue .rJ < Durak.rankValue c.rank) := by
  decide

/-- Claim C2: createDeck() returns exactly 36 cards, one card for each pair of
a rank in {6,7,8,9,10,J,Q,K,A} and one of the 4 suits, with no duplicate.
The code instead produces 32 cards and no card of rank 10: the loop runs over
numbers 6..13 and relabels 10→J, 11→Q, 12→K, 13→A, so the label "10" is never
generated.  This theorem evaluates the deck-construction code. -/
theorem claim_C2_eval :
    Durak.Card.create_deck.length = 32 ∧
    (∀ c ∈ Durak.Card.create_deck, c.rank ≠ Durak.Rank.r10) ∧
    Durak.Card.create_deck.Nodup := by
  decide

/-- Claim C4: a play with a non-empty list of candidate cards passes the rank
checks iff all candidates share one rank and, when the table is non-empty,
that rank already appears on the table as the rank of some attack card or of
some defense card of any pair; an empty table imposes no rank-matching
restriction. -/
theorem claim_C4 (table : List Durak.TablePair) (cards : List Durak.Card)
    (h : cards ≠ []) :
    Durak.play_rank_checks table cards = true ↔
      ∃ r, (∀ c ∈ cards, c.rank = r) ∧
        (table ≠ [] →
          ∃ pr ∈ table, pr.1.rank = r ∨ ∃ d, pr.2 = some d ∧ d.rank = r) := by
  rcases List.exists_cons_of_ne_nil h with ⟨c0, cs, rfl⟩
  have hmem : ∀ r : Durak.Rank,
      (Durak.table_allowed_values table).contains r = true ↔
      ∃ pr ∈ table, pr.1.rank = r ∨ ∃ d, pr.2 = some d ∧ d.rank = r := by
    intro r
    simp only [Durak.contains_eq_mem, Durak.table_allowed_values, List.mem_flatMap,
      List.mem_cons, Option.mem_toList, Option.mem_def, Option.map_eq_some']
    constructor
    · rintro ⟨pr, hpr, (h1 | ⟨d, hd, hdr⟩)⟩
      · exact ⟨pr, hpr, Or.inl h1.symm⟩
      · exact ⟨pr, hpr, Or.inr ⟨d, hd, hdr⟩⟩
    · rintro ⟨pr, hpr, (h1 | ⟨d, hd, hdr⟩)⟩
      · exact ⟨pr, hpr, Or.inl h1.symm⟩
      · exact ⟨pr, hpr, Or.inr ⟨d, hd, hdr⟩⟩
  have hsv : Durak.same_value_check (c0 :: cs) = true ↔
      ∀ c ∈ c0 :: cs, c.rank = c0.rank := by
    simp [Durak.same_value_check]
  have htrc : Durak.table_rank_check table (c0 :: cs) = true ↔
      (table = [] ∨ ∀ c ∈ c0 :: cs,
        ∃ pr ∈ table, pr.1.rank = c.rank ∨ ∃ d, pr.2 = some d ∧ d.rank = c.rank) := by
    rcases table with _ | ⟨p0, ts⟩
    · simp [Durak.table_rank_check]
    · simp only [Durak.table_rank_check, List.isEmpty_cons, Bool.false_eq_true,
        if_false, List.all_eq_true, reduceCtorEq, false_or]
      constructor
      · intro H c hc
        exact (hmem c.rank).mp (H c hc)
      · intro H c hc
        exact (hmem c.rank).mpr (H c hc)
  simp only [Durak.play_rank_checks, Bool.and_eq_true, hsv, htrc]
  constructor
  · rintro ⟨hs, ht⟩
    refine ⟨c0.rank, hs, fun hne => ?_⟩
    rcases ht with rfl | ht
    · exact absurd rfl hne
    · exact ht c0 (List.mem_cons_self c0 cs)
  · rintro ⟨r, hall, himp⟩
    have hc0 : c0.rank = r := hall c0 (List.mem_cons_self c0 cs)
    refine ⟨fun c hc => (hall c hc).trans hc0.symm, ?_⟩
    rcases Decidable.em (table = []) with rfl | hne
    · exact Or.inl rfl
    · refine Or.inr fun c hc => ?_
      rw [hall c hc]
      exact himp hne

/-- Witness for claim C4: on `tableC4` (ranks 7 and 9 in play) the candidate
9♦ passes the rank checks, matching the claim's characterization. -/
theorem claim_C4_witness :
    Durak.play_rank_checks Durak.tableC4 [⟨.r9, .diamonds⟩] = true ↔
      ∃ r, (∀ c ∈ [(⟨.r9, .diamonds⟩ : Durak.Card)], c.rank = r) ∧
        (Durak.tableC4 ≠ [] →
          ∃ pr ∈ Durak.tableC4,
            pr.1.rank = r ∨ ∃ d, pr.2 = some d ∧ d.rank = r) :=
  claim_C4 Durak.tableC4 [⟨.r9, .diamonds⟩] (by decide)

/-- Claim C3: for every attack card a, defense card d and trump suit T,
is_defence_success returns true iff (d.suit = T and a.suit ≠ T) or
(d.suit = a.suit and rank(d) > rank(a) in the 6..A face-value order),
and false in every other case. -/
theorem claim_C3 :
    ∀ (t : Durak.Suit) (a d : Durak.Card),
      Durak.is_defence_success t a d = true ↔
        ((d.suit = t ∧ a.suit ≠ t) ∨
         (d.suit = a.suit ∧ Durak.rankValue a.rank < Durak.rankValue d.rank)) := by
  decide
